import Mathlib

/-!
# Verification of the chat-with-pdf retrieval service

Shallow embedding of the two variants of the repository:

* `app.py` — in-memory variant: global chunk list, Gemini embeddings with a
  zero-vector fallback, brute-force cosine retrieval, bounded chat history.
* `vector_store.py` / `query_engine.py` / `pdf_processor.py` / `main.py` —
  FAISS variant: flat L2 index, metadata store keyed by row id, document
  store, filtered search, answer generation with mean-similarity confidence.

Modelling conventions:

* Python `str` on the ingestion path (`chunk_text`, uploads) is `List Char`,
  so splitting/stripping/joining are executable and decidable; `str` elsewhere
  (identifiers, chunk payloads) is Lean `String`.
* Vector components are `ℚ` (the claims under study are order/identity
  properties of the scores, not float rounding); the external embedding and
  generation services are oracles (`... → Option ...`), `none` modelling a
  raised exception; fallible operations return `Except String`.
* Python whitespace is modelled by `Char.isWhitespace`.
* Disk persistence (`_save_index` / `_load_index`) is I/O and is not part of
  the state transitions modelled here.
-/

/-! ## Python primitives -/

/-- Python `str.split()` with no argument: split on whitespace runs and drop
empty tokens. -/
def pySplit (s : List Char) : List (List Char) :=
  (s.splitOnP (fun c => c.isWhitespace)).filter (fun w => w ≠ [])

/-- Python `str.strip()`: remove leading and trailing whitespace. -/
def pyStrip (s : List Char) : List Char :=
  ((s.dropWhile (fun c => c.isWhitespace)).reverse.dropWhile
    (fun c => c.isWhitespace)).reverse

/-- Python `' '.join(words)`. -/
def joinWords (ws : List (List Char)) : List Char :=
  List.intercalate [' '] ws

/-- Resolve a Python slice bound on a list of length `n`: negative indices
count from the end, and the result is clamped into `[0, n]`. -/
def pyBound (n : Nat) (i : Int) : Nat :=
  if i < 0 then ((n : Int) + i).toNat else min i.toNat n

/-- Python list slice `l[i:j]` (unit step). -/
def pySlice {α : Type} (l : List α) (i j : Int) : List α :=
  (l.take (pyBound l.length j)).drop (pyBound l.length i)

/-- Python `l[-k:]`: the last `k` elements — except that `k = 0` gives the
whole list (`-0 == 0`, so the slice is `l[0:]`). -/
def pyTakeLast {α : Type} (l : List α) (k : Nat) : List α :=
  if k = 0 then l else l.drop (l.length - k)

/-- Python `range(start, stop, step)` as a list of `Int`.  `none` models the
`ValueError` that `range` raises when `step == 0`. -/
def pyRange (start stop step : Int) : Option (List Int) :=
  if step = 0 then none
  else
    let count : Nat :=
      if 0 < step then ((stop - start) + step - 1).toNat / step.toNat
      else ((start - stop) + (-step) - 1).toNat / (-step).toNat
    some ((List.range count).map (fun (i : Nat) => start + step * (i : Int)))

/-- Insertion into a Python `dict` rendered as an association list:
assignment to an existing key updates it in place (keeping its position);
a new key is appended. -/
def dictInsert {κ ν : Type} [DecidableEq κ] (k : κ) (v : ν)
    (d : List (κ × ν)) : List (κ × ν) :=
  if d.any (fun p => p.1 = k) then d.map (fun p => if p.1 = k then (k, v) else p)
  else d ++ [(k, v)]

/-- Python `d.get(k)` on an association-list dict. -/
def dictGet {κ ν : Type} [DecidableEq κ] (k : κ) (d : List (κ × ν)) : Option ν :=
  (d.find? (fun p => p.1 = k)).map (fun p => p.2)

/-- Python `s.endswith(suffix)`, on the character list of a string. -/
def pyEndsWith (s suffix : List Char) : Bool := List.isSuffixOf suffix s

deriving instance DecidableEq for Except

/-! ## `app.py`: word-window chunker -/

/-- `app.py` `chunk_text`: split `text` into overlapping word windows.  A new
window starts every `chunk_size - overlap` words (Python
`range(0, len(words), chunk_size - overlap)`), each window joins up to
`chunk_size` words, and a chunk is kept only if it is non-empty after
stripping.  The loop body appending under a condition is rendered as
`filterMap`.  `none` models the `ValueError` that `range` raises when
`chunk_size - overlap == 0`. -/
def chunk_text (text : List Char) (chunk_size overlap : Int) :
    Option (List (List Char)) :=
  let words := pySplit text
  match pyRange 0 (words.length : Int) (chunk_size - overlap) with
  | none => none
  | some idxs =>
    some (idxs.filterMap (fun i =>
      let chunk := joinWords (pySlice words i (i + chunk_size))
      if pyStrip chunk ≠ [] then some chunk else none))

/-! ## `app.py`: embedder, retrieval, ingestion, history -/

/-- `app.py` `get_embedding`: call the external embedding service (the oracle
`svc`; `none` models a raised exception).  On failure the source logs and
returns a 768-dimensional zero vector instead of propagating the error. -/
def get_embedding (svc : List Char → Option (List ℚ)) (text : List Char) :
    List ℚ :=
  match svc text with
  | some v => v
  | none => List.replicate 768 0

/-- One `{question, answer, timestamp}` record of the chat history; the
timestamp field carries the `datetime.now().isoformat()` value taken when the
record is appended. -/
structure HistoryItem where
  question : String
  answer : String
  timestamp : String
  deriving DecidableEq

/-- The global in-memory state of `app.py`: `document_chunks`,
`chunk_embeddings`, `chat_history`. -/
structure AppState where
  document_chunks : List (List Char)
  chunk_embeddings : List (List ℚ)
  chat_history : List HistoryItem
  deriving DecidableEq

/-- `np.argsort(similarities)`: indices that sort the values ascending.
NumPy's default sort is not stable on ties; the model breaks ties by
ascending index, a deterministic refinement. -/
def npArgsort (sims : List ℚ) : List Nat :=
  (List.insertionSort (fun a b : ℚ × Nat => a.1 < b.1 ∨ (a.1 = b.1 ∧ a.2 ≤ b.2))
    (sims.enum.map (fun p => (p.2, p.1)))).map (fun p => p.2)

/-- `app.py` `retrieve_relevant_chunks`.  `sklearn.cosine_similarity` is an
external numeric routine (floating point, irrational norms); it enters the
model as the parameter `cos`, applied pairwise exactly as the source applies
the library call.  Returns the chunks at the top-k argsorted indices
(`argsort[-top_k:][::-1]`) and the similarity at the best index. -/
def retrieve_relevant_chunks (svc : List Char → Option (List ℚ))
    (cos : List ℚ → List ℚ → ℚ) (st : AppState) (query : List Char)
    (top_k : Nat) : List (List Char) × ℚ :=
  if st.document_chunks = [] then ([], 0)
  else
    let query_embedding := get_embedding svc query
    let similarities := st.chunk_embeddings.map (fun e => cos query_embedding e)
    let top_indices := (pyTakeLast (npArgsort similarities) top_k).reverse
    let relevant_chunks := top_indices.map (fun i => st.document_chunks.getD i [])
    (relevant_chunks, similarities.getD (top_indices.headD 0) 0)

/-- `app.py` `upload_document`, after the external I/O steps (file read, PDF
text extraction / UTF-8 decode) have produced `text`.  On success the two
chunk stores are overwritten with the new document's data; returns the chunk
count reported in the `UploadResponse`. -/
def upload_document (svc : List Char → Option (List ℚ)) (st : AppState)
    (filename : String) (text : List Char) : Except String (AppState × Nat) :=
  if ¬ (pyEndsWith filename.data ".pdf".data ∨ pyEndsWith filename.data ".txt".data) then
    .error "Unsupported file type. Use PDF or TXT."
  else if pyStrip text = [] then
    .error "No text could be extracted from the file."
  else
    match chunk_text text 500 50 with
    | none => .error "range() arg 3 must not be zero"
    | some cs =>
      .ok ({ document_chunks := cs,
             chunk_embeddings := cs.map (get_embedding svc),
             chat_history := st.chat_history }, cs.length)

/-- `app.py` `load_wikipedia`: the Wikipedia lookup is the oracle `wiki`
(`.error` models `DisambiguationError` / `PageError` / network failure).  On
success the two chunk stores are overwritten with the article's chunks. -/
def load_wikipedia (svc : List Char → Option (List ℚ))
    (wiki : String → Except String (List Char)) (st : AppState)
    (topic : String) : Except String (AppState × Nat) :=
  match wiki topic with
  | .error e => .error e
  | .ok text =>
    if pyStrip text = [] then .error "No content found for this topic."
    else
      match chunk_text text 500 50 with
      | none => .error "range() arg 3 must not be zero"
      | some cs =>
        .ok ({ document_chunks := cs,
               chunk_embeddings := cs.map (get_embedding svc),
               chat_history := st.chat_history }, cs.length)

/-- The history-maintenance step of `app.py` `query_documents`: append the
new record, then `if len(chat_history) > 50: chat_history.pop(0)`. -/
def save_history (hist : List HistoryItem) (item : HistoryItem) :
    List HistoryItem :=
  let h := hist ++ [item]
  if 50 < h.length then h.drop 1 else h

/-- Iterated `save_history`: one append per answered query. -/
def save_history_all (hist : List HistoryItem) (items : List HistoryItem) :
    List HistoryItem :=
  items.foldl save_history hist

/-! ## `vector_store.py`: FAISS flat-L2 store -/

/-- The per-document metadata dict built by `pdf_processor.process_pdf`
(the fields the modelled operations read). -/
structure DocMeta where
  document_id : String
  filename : String
  page_count : Nat
  upload_time : String
  deriving DecidableEq

/-- One value of `metadata_store`: the payload stored per vector row. -/
structure ChunkMeta where
  document_id : String
  chunk_id : Nat
  text : String
  metadata : DocMeta
  deriving DecidableEq

/-- One value of `document_chunks`: per-document bookkeeping. -/
structure DocInfo where
  metadata : DocMeta
  chunk_count : Nat
  vector_ids : List Nat
  deriving DecidableEq

/-- A chunk as handed to `add_document` (built by `create_chunks`). -/
structure ChunkIn where
  text : String
  chunk_id : Nat
  metadata : DocMeta
  deriving DecidableEq

/-- `VectorStoreManager` state: the FAISS flat index is the list of stored
embeddings in insertion order (row id = position, dense and append-only);
`metadata_store` keys `str(row_id)` are modelled as the `Nat` row id itself
(`str` is injective on ints). -/
structure VectorStore where
  index : List (List ℚ)
  metadata_store : List (Nat × ChunkMeta)
  document_chunks : List (String × DocInfo)
  deriving DecidableEq

/-- One row of a search response (`results.append({...})` in `search`).
`row_id` records the FAISS row `idx` the result row was built from — the key
under which its payload sits in `metadata_store` — so that row-identity
properties can be stated. -/
structure SearchResult where
  text : String
  document_id : String
  chunk_id : Nat
  metadata : DocMeta
  score : ℚ
  similarity : ℚ
  row_id : Nat
  deriving DecidableEq

/-- Squared L2 distance — the distance `faiss.IndexFlatL2` reports. -/
def sqDist (a b : List ℚ) : ℚ :=
  (a.zipWith (fun x y => (x - y) ^ 2) b).sum

/-- FAISS flat-index ranking order on `(distance, row id)` candidates:
ascending distance, ties by ascending row id. -/
def candLE (a b : ℚ × Nat) : Prop :=
  a.1 < b.1 ∨ (a.1 = b.1 ∧ a.2 ≤ b.2)

instance : DecidableRel candLE := fun a b => by
  unfold candLE; infer_instance

instance : IsTotal (ℚ × Nat) candLE := by
  constructor
  intro a b
  rcases lt_trichotomy a.1 b.1 with h | h | h
  · exact Or.inl (Or.inl h)
  · rcases Nat.le_total a.2 b.2 with h2 | h2
    · exact Or.inl (Or.inr ⟨h, h2⟩)
    · exact Or.inr (Or.inr ⟨h.symm, h2⟩)
  · exact Or.inr (Or.inl h)

instance : IsTrans (ℚ × Nat) candLE := by
  constructor
  intro a b c hab hbc
  rcases hab with h1 | ⟨e1, l1⟩
  · rcases hbc with h2 | ⟨e2, _⟩
    · exact Or.inl (h1.trans h2)
    · exact Or.inl (e2 ▸ h1)
  · rcases hbc with h2 | ⟨e2, l2⟩
    · exact Or.inl (e1 ▸ h2)
    · exact Or.inr ⟨e1.trans e2, l1.trans l2⟩

/-- `self.index.search(q, n)` on a flat L2 index: score every stored row,
rank by `candLE`, return the best `n` as `(distance, row_id)` pairs.  The
caller always passes `n ≤ ntotal`, so the `-1` padding indices FAISS emits
when `n > ntotal` (skipped by the source's `idx == -1` guard) do not arise. -/
def faissSearch (index : List (List ℚ)) (q : List ℚ) (n : Nat) :
    List (ℚ × Nat) :=
  (List.insertionSort candLE
    ((List.range index.length).map (fun i => (sqDist q (index.getD i []), i)))).take n

/-- The body of the result loop of `VectorStoreManager.search` for one
candidate: look the row up in `metadata_store` (a dangling row — deleted
document — is skipped), apply the document-id filter (Python
`if document_ids and ... not in document_ids` — a `None` *or empty* filter
list is falsy and disables filtering), and build the result row with
`score = dist` and `similarity = 1 / (1 + dist)`. -/
def candResult (ms : List (Nat × ChunkMeta)) (document_ids : Option (List String))
    (c : ℚ × Nat) : Option SearchResult :=
  match dictGet c.2 ms with
  | none => none
  | some m =>
    if document_ids.getD [] ≠ [] ∧ m.document_id ∉ document_ids.getD [] then none
    else
      some { text := m.text, document_id := m.document_id,
             chunk_id := m.chunk_id, metadata := m.metadata,
             score := c.1, similarity := 1 / (1 + c.1), row_id := c.2 }

/-- The result loop of `VectorStoreManager.search`: scan the candidates in
rank order, keep the survivors, and `break` as soon as
`len(results) >= top_k` (checked after each append). -/
def searchLoop (ms : List (Nat × ChunkMeta)) (document_ids : Option (List String))
    (top_k : Nat) : List (ℚ × Nat) → List SearchResult → List SearchResult
  | [], acc => acc
  | c :: rest, acc =>
    match candResult ms document_ids c with
    | none => searchLoop ms document_ids top_k rest acc
    | some r =>
      if top_k ≤ (acc ++ [r]).length then acc ++ [r]
      else searchLoop ms document_ids top_k rest (acc ++ [r])

/-- `VectorStoreManager.search`: empty index short-circuits to `[]` before
any embedding call; otherwise embed the query (`emb`, the
`SentenceTransformer` oracle — `none` models a raised exception, re-raised by
`create_embeddings`), fetch `min(top_k * 2, ntotal)` candidates, and run the
filter loop. -/
def VectorStoreManager.search (vs : VectorStore)
    (emb : String → Option (List ℚ)) (query : String) (top_k : Nat)
    (document_ids : Option (List String)) : Except String (List SearchResult) :=
  if vs.index.length = 0 then .ok []
  else
    match emb query with
    | none => .error "Error creating embeddings"
    | some qe =>
      .ok (searchLoop vs.metadata_store document_ids top_k
        (faissSearch vs.index qe (min (top_k * 2) vs.index.length)) [])

/-- `VectorStoreManager.add_document`: embed every chunk text (failure
re-raises), append the embeddings to the index, register each row in
`metadata_store` under `start_idx + idx`, and record the document with its
row-id range `range(start_idx, start_idx + len(chunks))`. -/
def VectorStoreManager.add_document (vs : VectorStore)
    (emb : String → Option (List ℚ)) (document_id : String)
    (chunks : List ChunkIn) (metadata : DocMeta) : Except String VectorStore :=
  match (chunks.map (fun c => c.text)).mapM emb with
  | none => .error "Error creating embeddings"
  | some embeddings =>
    let start_idx := vs.index.length
    .ok { index := vs.index ++ embeddings,
          metadata_store := chunks.enum.foldl
            (fun ms p => dictInsert (start_idx + p.1)
              { document_id := document_id, chunk_id := p.2.chunk_id,
                text := p.2.text, metadata := p.2.metadata } ms)
            vs.metadata_store,
          document_chunks := dictInsert document_id
            { metadata := metadata, chunk_count := chunks.length,
              vector_ids := List.range' start_idx chunks.length }
            vs.document_chunks }

/-- `VectorStoreManager.delete_document`: `False` if the document is
unknown; otherwise drop its `document_chunks` entry and every
`metadata_store` entry whose payload names this document.  The index rows
themselves are left in place (non-compacting delete). -/
def VectorStoreManager.delete_document (vs : VectorStore)
    (document_id : String) : Bool × VectorStore :=
  if (vs.document_chunks.find? (fun p => p.1 = document_id)).isNone then
    (false, vs)
  else
    (true,
     { vs with
       document_chunks := vs.document_chunks.filter (fun p => p.1 ≠ document_id),
       metadata_store :=
         vs.metadata_store.filter (fun p => p.2.document_id ≠ document_id) })

/-- One row of the `list_documents` response. -/
structure DocEntry where
  document_id : String
  filename : String
  page_count : Nat
  chunk_count : Nat
  upload_time : String
  deriving DecidableEq

/-- `VectorStoreManager.list_documents`. -/
def VectorStoreManager.list_documents (vs : VectorStore) : List DocEntry :=
  vs.document_chunks.map (fun p =>
    { document_id := p.1, filename := p.2.metadata.filename,
      page_count := p.2.metadata.page_count, chunk_count := p.2.chunk_count,
      upload_time := p.2.metadata.upload_time })

/-! ## `query_engine.py`: context assembly and answer generation -/

/-- `config.py` `Settings.MAX_CONTEXT_LENGTH`. -/
def settings.MAX_CONTEXT_LENGTH : Nat := 4000

/-- `config.py` `Settings.DEFAULT_TOP_K`. -/
def settings.DEFAULT_TOP_K : Nat := 5

/-- The per-chunk context block
`f"[Source {idx} - {chunk['metadata']['filename']}]:\n{chunk['text']}\n"`. -/
def sourceBlock (idx : Nat) (c : SearchResult) : String :=
  "[Source " ++ toString idx ++ " - " ++ c.metadata.filename ++ "]:\n"
    ++ c.text ++ "\n"

/-- The loop of `QueryEngine._prepare_context`: `idx` counts from 1,
`current` is `current_length`; a chunk whose block would push the cumulative
length past `max_length` stops the loop (whole chunks only, never split). -/
def contextParts (max_length : Nat) : Nat → Nat → List SearchResult → List String
  | _, _, [] => []
  | idx, current, c :: rest =>
    let t := sourceBlock idx c
    if max_length < current + t.length then []
    else t :: contextParts max_length (idx + 1) (current + t.length) rest

/-- `QueryEngine._prepare_context` (with the default
`settings.MAX_CONTEXT_LENGTH` budget supplied by the caller). -/
def prepare_context (max_length : Nat) (chunks : List SearchResult) : String :=
  if chunks = [] then "" else
    String.intercalate "\n" (contextParts max_length 1 0 chunks)

/-- Python `round(q, 3)`, on exact rationals: round `q * 1000` to the nearest
integer and scale back.  (CPython rounds half to even on binary floats;
`round` here rounds half up — the two agree except exactly at `.0005`
boundaries, which is immaterial to the claims checked.) -/
def round3 (q : ℚ) : ℚ := (round (q * 1000) : ℤ) / 1000

/-- One entry of the `sources` list built by `QueryEngine.generate_answer`. -/
structure SourceEntry where
  document_id : String
  filename : String
  chunk_id : Nat
  relevance_score : ℚ
  deriving DecidableEq

/-- The source-deduplication loop of `QueryEngine.generate_answer`: one
entry per distinct owning document, first-seen order preserved. -/
def dedupSources : List SearchResult → List String → List SourceEntry
  | [], _ => []
  | c :: rest, seen =>
    if c.document_id ∈ seen then dedupSources rest seen
    else
      { document_id := c.document_id, filename := c.metadata.filename,
        chunk_id := c.chunk_id, relevance_score := round3 c.similarity }
        :: dedupSources rest (c.document_id :: seen)

/-- The `{answer, sources, confidence}` response of
`QueryEngine.generate_answer`. -/
structure AnswerResult where
  answer : String
  sources : List SourceEntry
  confidence : ℚ
  deriving DecidableEq

/-- The prompt template of `QueryEngine.generate_answer`. -/
def answerPrompt (context query : String) : String :=
  "You are an intelligent document assistant. Answer the user's question "
    ++ "based ONLY on the provided context from the documents.\n\n"
    ++ "Context from documents:\n" ++ context ++ "\n\nUser Question: " ++ query
    ++ "\n\nInstructions:\n"
    ++ "1. Answer the question accurately using information from the context\n"
    ++ "2. If the context doesn't contain enough information, say so clearly\n"
    ++ "3. Be concise and specific\n"
    ++ "4. Cite which source(s) you're using in your answer\n"
    ++ "5. If asked for specific details, provide them exactly as they appear "
    ++ "in the context\n\nAnswer:"

/-- `QueryEngine.generate_answer`: assemble the context (empty context
short-circuits with confidence 0.0), call the generation model (the oracle
`gen`; `none` models a raised exception, re-raised by the source), and report
`confidence = round(min(mean similarity of the context chunks, 1.0), 3)`
with the deduplicated sources.  In the non-empty-context branch
`context_chunks` is non-empty, so the Python `sum(...) / len(...)` divides by
a positive count. -/
def generate_answer (gen : String → Option String) (query : String)
    (context_chunks : List SearchResult) : Except String AnswerResult :=
  let context := prepare_context settings.MAX_CONTEXT_LENGTH context_chunks
  if context = "" then
    .ok { answer := "I couldn't find relevant information to answer your question.",
          sources := [], confidence := 0 }
  else
    match gen (answerPrompt context query) with
    | none => .error "Error generating answer"
    | some answer =>
      let avg_similarity :=
        (context_chunks.map (fun c => c.similarity)).sum / context_chunks.length
      .ok { answer := answer,
            sources := dedupSources context_chunks [],
            confidence := round3 (min avg_similarity 1) }

/-! ## Concrete fixtures used by witnesses and counterexamples -/

/-- A 1200-word text (the end-to-end chunking scenario of the spec). -/
def text1200 : List Char := joinWords (List.replicate 1200 ['w'])

/-- Document metadata fixture for document `d1`. -/
def docMeta0 : DocMeta :=
  { document_id := "d1", filename := "f.pdf", page_count := 1,
    upload_time := "2024-01-01T00:00:00" }

/-- Document metadata fixture for document `d2`. -/
def docMeta1 : DocMeta :=
  { document_id := "d2", filename := "g.pdf", page_count := 1,
    upload_time := "2024-01-02T00:00:00" }

/-- A single input chunk for document `d1`. -/
def chunkIn0 : ChunkIn := { text := "hello", chunk_id := 0, metadata := docMeta0 }

/-- An embedding oracle that always succeeds with the vector `[0]`. -/
def emb0 : String → Option (List ℚ) := fun _ => some [0]

/-- The empty vector store. -/
def emptyStore : VectorStore :=
  { index := [], metadata_store := [], document_chunks := [] }

/-- The store obtained by adding document `d1` (one chunk) to the empty
store with `emb0`. -/
def store1 : VectorStore :=
  { index := [[0]],
    metadata_store :=
      [(0, { document_id := "d1", chunk_id := 0, text := "hello",
             metadata := docMeta0 })],
    document_chunks := [("d1", { metadata := docMeta0, chunk_count := 1,
                                 vector_ids := [0] })] }

/-- `store1` after deleting document `d1`: the index row stays (non-compacting
delete), the metadata and document entries are gone. -/
def store2 : VectorStore :=
  { index := [[0]], metadata_store := [], document_chunks := [] }

/-- A two-document store: row 0 (`d1`, embedding `[0]`) and row 1 (`d2`,
embedding `[3]`). -/
def store3 : VectorStore :=
  { index := [[0], [3]],
    metadata_store :=
      [(0, { document_id := "d1", chunk_id := 0, text := "a",
             metadata := docMeta0 }),
       (1, { document_id := "d2", chunk_id := 1, text := "b",
             metadata := docMeta1 })],
    document_chunks :=
      [("d1", { metadata := docMeta0, chunk_count := 1, vector_ids := [0] }),
       ("d2", { metadata := docMeta1, chunk_count := 1, vector_ids := [1] })] }

/-- A retrieved chunk whose similarity is `1/3` (a score of `2`). -/
def chunkThird : SearchResult :=
  { text := "t", document_id := "d1", chunk_id := 0, metadata := docMeta0,
    score := 2, similarity := 1/3, row_id := 0 }

/-- A retrieved chunk whose similarity is `1/2` (a score of `1`). -/
def chunkHalf : SearchResult :=
  { text := "t", document_id := "d1", chunk_id := 0, metadata := docMeta0,
    score := 1, similarity := 1/2, row_id := 0 }

/-- A history record fixture. -/
def item0 : HistoryItem := { question := "q", answer := "a", timestamp := "t" }

/-! ## Supporting lemmas -/

theorem sqDist_nonneg (q v : List ℚ) : 0 ≤ sqDist q v := by
  induction q generalizing v with
  | nil => simp [sqDist]
  | cons x q ih =>
    cases v with
    | nil => simp [sqDist]
    | cons y v =>
      have h := ih v
      simp only [sqDist, List.zipWith_cons_cons, List.sum_cons] at *
      have h2 : (0:ℚ) ≤ (x - y) ^ 2 := sq_nonneg _
      linarith

theorem candLE_fst {a b : ℚ × Nat} (h : candLE a b) : a.1 ≤ b.1 := by
  rcases h with h | ⟨h, _⟩
  · exact le_of_lt h
  · exact le_of_eq h

theorem candResult_fields {ms : List (Nat × ChunkMeta)}
    {ids : Option (List String)} {c : ℚ × Nat} {r : SearchResult}
    (h : candResult ms ids c = some r) :
    r.row_id = c.2 ∧ r.score = c.1 ∧ r.similarity = 1 / (1 + c.1) ∧
      ∃ m, dictGet c.2 ms = some m ∧ r.document_id = m.document_id := by
  unfold candResult at h
  cases hm : dictGet c.2 ms with
  | none => rw [hm] at h; simp at h
  | some m =>
    rw [hm] at h
    simp only at h
    by_cases hf : ids.getD [] ≠ [] ∧ m.document_id ∉ ids.getD []
    · rw [if_pos hf] at h; simp at h
    · rw [if_neg hf] at h
      cases h
      exact ⟨rfl, rfl, rfl, m, rfl, rfl⟩

theorem candResult_filter {ms : List (Nat × ChunkMeta)} {ids : List String}
    {c : ℚ × Nat} {r : SearchResult} (hne : ids ≠ [])
    (h : candResult ms (some ids) c = some r) : r.document_id ∈ ids := by
  unfold candResult at h
  cases hm : dictGet c.2 ms with
  | none => rw [hm] at h; simp at h
  | some m =>
    rw [hm] at h
    simp only at h
    by_cases hd : m.document_id ∈ ids
    · have hnot : ¬ ((some ids).getD [] ≠ [] ∧
          m.document_id ∉ (some ids).getD []) := by simp [hd]
      rw [if_neg hnot] at h
      cases h
      exact hd
    · have hyes : (some ids).getD [] ≠ [] ∧
          m.document_id ∉ (some ids).getD [] := by simp [hd, hne]
      rw [if_pos hyes] at h
      simp at h

theorem searchLoop_eq_take (ms : List (Nat × ChunkMeta))
    (ids : Option (List String)) (top_k : Nat) :
    ∀ (cands : List (ℚ × Nat)) (acc : List SearchResult),
      acc.length < top_k →
      searchLoop ms ids top_k cands acc
        = (acc ++ cands.filterMap (candResult ms ids)).take top_k := by
  intro cands
  induction cands with
  | nil =>
    intro acc h
    simp [searchLoop, List.take_of_length_le (Nat.le_of_lt h)]
  | cons c rest ih =>
    intro acc h
    simp only [searchLoop, List.filterMap_cons]
    cases hc : candResult ms ids c with
    | none =>
      simp only [hc]
      exact ih acc h
    | some r =>
      simp only [hc]
      by_cases hk : top_k ≤ (acc ++ [r]).length
      · rw [if_pos hk]
        have hlen : (acc ++ [r]).length = top_k := by
          simp only [List.length_append, List.length_cons, List.length_nil] at hk ⊢
          omega
        have hsplit : acc ++ r :: rest.filterMap (candResult ms ids)
            = (acc ++ [r]) ++ rest.filterMap (candResult ms ids) := by simp
        rw [hsplit, ← hlen, List.take_left]
      · rw [if_neg hk]
        have h2 : (acc ++ [r]).length < top_k := by
          simp only [List.length_append, List.length_cons, List.length_nil] at hk ⊢
          omega
        rw [ih (acc ++ [r]) h2]
        have hsplit : acc ++ r :: rest.filterMap (candResult ms ids)
            = (acc ++ [r]) ++ rest.filterMap (candResult ms ids) := by simp
        rw [hsplit]

theorem mem_searchLoop (ms : List (Nat × ChunkMeta)) (ids : Option (List String))
    (top_k : Nat) :
    ∀ (cands : List (ℚ × Nat)) (acc : List SearchResult) (r : SearchResult),
      r ∈ searchLoop ms ids top_k cands acc →
      r ∈ acc ∨ ∃ c ∈ cands, candResult ms ids c = some r := by
  intro cands
  induction cands with
  | nil =>
    intro acc r h
    exact Or.inl (by simpa [searchLoop] using h)
  | cons c rest ih =>
    intro acc r h
    simp only [searchLoop] at h
    cases hc : candResult ms ids c with
    | none =>
      simp only [hc] at h
      rcases ih acc r h with h1 | ⟨c2, hc2, he⟩
      · exact Or.inl h1
      · exact Or.inr ⟨c2, List.mem_cons_of_mem _ hc2, he⟩
    | some r2 =>
      simp only [hc] at h
      by_cases hk : top_k ≤ (acc ++ [r2]).length
      · rw [if_pos hk] at h
        rcases List.mem_append.1 h with h1 | h1
        · exact Or.inl h1
        · simp only [List.mem_singleton] at h1
          exact Or.inr ⟨c, List.mem_cons_self c rest, by rw [← h1] at hc; exact hc⟩
      · rw [if_neg hk] at h
        rcases ih (acc ++ [r2]) r h with h1 | ⟨c2, hc2, he⟩
        · rcases List.mem_append.1 h1 with h2 | h2
          · exact Or.inl h2
          · simp only [List.mem_singleton] at h2
            exact Or.inr ⟨c, List.mem_cons_self c rest, by rw [← h2] at hc; exact hc⟩
        · exact Or.inr ⟨c2, List.mem_cons_of_mem _ hc2, he⟩

theorem faissSearch_length (index : List (List ℚ)) (q : List ℚ) (n : Nat)
    (h : n ≤ index.length) : (faissSearch index q n).length = n := by
  unfold faissSearch
  rw [List.length_take, List.length_insertionSort, List.length_map,
    List.length_range]
  omega

theorem faissSearch_sorted (index : List (List ℚ)) (q : List ℚ) (n : Nat) :
    List.Pairwise candLE (faissSearch index q n) :=
  List.Pairwise.sublist (List.take_sublist _ _)
    (List.sorted_insertionSort candLE _)

theorem faissSearch_nodup (index : List (List ℚ)) (q : List ℚ) (n : Nat) :
    List.Pairwise (fun a b : ℚ × Nat => a.2 ≠ b.2) (faissSearch index q n) := by
  have hbase : List.Pairwise (fun a b : ℚ × Nat => a.2 ≠ b.2)
      ((List.range index.length).map
        (fun i => (sqDist q (index.getD i []), i))) := by
    rw [List.pairwise_map]
    simpa [List.Nodup] using List.nodup_range index.length
  have hperm := List.perm_insertionSort candLE
    ((List.range index.length).map (fun i => (sqDist q (index.getD i []), i)))
  exact List.Pairwise.sublist (List.take_sublist _ _)
    ((hperm.pairwise_iff (fun h => Ne.symm h)).2 hbase)

theorem faissSearch_mem (index : List (List ℚ)) (q : List ℚ) (n : Nat) :
    ∀ p ∈ faissSearch index q n, p.1 = sqDist q (index.getD p.2 []) := by
  intro p hp
  have h1 : p ∈ List.insertionSort candLE
      ((List.range index.length).map
        (fun i => (sqDist q (index.getD i []), i))) :=
    (List.take_sublist _ _).mem hp
  have h2 : p ∈ (List.range index.length).map
      (fun i => (sqDist q (index.getD i []), i)) :=
    ((List.perm_insertionSort candLE _).mem_iff).1 h1
  obtain ⟨i, _, rfl⟩ := List.mem_map.1 h2
  rfl

theorem dictInsert_exists_key {κ ν : Type} [DecidableEq κ] (k : κ) (v : ν)
    (d : List (κ × ν)) : ∃ p ∈ dictInsert k v d, p.1 = k := by
  unfold dictInsert
  by_cases h : d.any (fun p => p.1 = k)
  · rw [if_pos h]
    obtain ⟨x, hx, hxk⟩ := List.any_eq_true.1 h
    have hxk2 : x.1 = k := by simpa using hxk
    refine ⟨(k, v), List.mem_map.2 ⟨x, hx, ?_⟩, rfl⟩
    rw [if_pos hxk2]
  · rw [if_neg h]
    exact ⟨(k, v), List.mem_append_right _ (List.mem_singleton.2 rfl), rfl⟩

theorem save_history_length_le (hist : List HistoryItem) (item : HistoryItem)
    (h : hist.length ≤ 50) : (save_history hist item).length ≤ 50 := by
  unfold save_history
  by_cases h1 : 50 < (hist ++ [item]).length
  · rw [if_pos h1]
    simp only [List.length_drop, List.length_append, List.length_cons,
      List.length_nil] at *
    omega
  · rw [if_neg h1]
    simp only [List.length_append, List.length_cons, List.length_nil] at *
    omega

theorem save_history_of_lt (hist : List HistoryItem) (item : HistoryItem)
    (h : hist.length < 50) : save_history hist item = hist ++ [item] := by
  unfold save_history
  rw [if_neg (by simp only [List.length_append, List.length_cons,
    List.length_nil]; omega)]

theorem save_history_all_eq :
    ∀ (items : List HistoryItem) (hist : List HistoryItem), hist.length ≤ 50 →
      save_history_all hist items
        = (hist ++ items).drop (hist.length + items.length - 50) := by
  intro items
  induction items with
  | nil =>
    intro hist h
    simp only [save_history_all, List.foldl_nil, List.append_nil,
      List.length_nil]
    rw [show hist.length + 0 - 50 = 0 from by omega, List.drop_zero]
  | cons i rest ih =>
    intro hist h
    show save_history_all (save_history hist i) rest = _
    have hlen1 : (hist ++ [i]).length = hist.length + 1 := by
      simp only [List.length_append, List.length_cons, List.length_nil]
    by_cases hlt : hist.length < 50
    · have hle : (hist ++ [i]).length ≤ 50 := by omega
      rw [save_history_of_lt hist i hlt, ih (hist ++ [i]) hle,
        List.append_assoc, List.singleton_append]
      congr 1
      simp only [List.length_cons, hlen1]
      omega
    · have h50 : hist.length = 50 := by omega
      have hs : save_history hist i = (hist ++ [i]).drop 1 := by
        unfold save_history
        rw [if_pos (by omega)]
      have hle2 : ((hist ++ [i]).drop 1).length ≤ 50 := by
        simp only [List.length_drop, hlen1]
        omega
      rw [hs, ih ((hist ++ [i]).drop 1) hle2,
        ← List.drop_append_of_le_length (by omega), List.drop_drop,
        List.append_assoc, List.singleton_append]
      congr 1
      simp only [List.length_drop, List.length_cons, hlen1]
      omega

theorem pyRange_neg_zero (stop step : Int) (hs : step < 0) (h0 : 0 ≤ stop) :
    pyRange 0 stop step = some [] := by
  simp only [pyRange]
  rw [if_neg (show ¬ step = 0 by omega), if_neg (show ¬ (0:Int) < step by omega),
    Nat.div_eq_of_lt (show ((0:Int) - stop + -step - 1).toNat < (-step).toNat
      by omega)]
  simp

theorem pyRange_pos_zero (stop step : Int) (hs : 0 < step) :
    pyRange 0 stop step
      = some ((List.range ((stop + step - 1).toNat / step.toNat)).map
          (fun (i : Nat) => step * (i : Int))) := by
  simp only [pyRange]
  rw [if_neg (show ¬ step = 0 by omega), if_pos hs]
  rw [show stop - 0 + step - 1 = stop + step - 1 from by ring]
  simp only [zero_add]

theorem pySlice_length_le {α : Type} (l : List α) (i size : Int) (hi : 0 ≤ i)
    (hs : 0 ≤ size) : ((pySlice l i (i + size)).length : Int) ≤ size := by
  unfold pySlice pyBound
  rw [if_neg (show ¬ i + size < 0 by omega), if_neg (show ¬ i < 0 by omega)]
  simp only [List.length_drop, List.length_take]
  omega

theorem round3_bounds {q : ℚ} (h0 : 0 ≤ q) (h1 : q ≤ 1) :
    0 ≤ round3 q ∧ round3 q ≤ 1 := by
  unfold round3
  constructor
  · apply div_nonneg _ (by norm_num)
    have hz : (0:ℤ) ≤ round (q * 1000) := by
      rw [round_eq]
      exact Int.le_floor.2 (by push_cast; linarith)
    exact_mod_cast hz
  · rw [div_le_one (by norm_num : (0:ℚ) < 1000)]
    have hb : round (q * 1000) ≤ 1000 := by
      rw [round_eq]
      have hle : q * 1000 + 1/2 ≤ (2001 : ℚ)/2 := by linarith
      calc ⌊q * 1000 + 1/2⌋ ≤ ⌊(2001 : ℚ)/2⌋ := Int.floor_mono hle
        _ = 1000 := by
          rw [Int.floor_eq_iff]
          constructor <;> norm_num
    exact_mod_cast hb

/-! ## Claims -/

set_option maxRecDepth 4000 in
/-- Claim C1: the claim demands that an embedding-service failure fails the
enclosing operation and that no input ever yields a substituted zero vector.
The code does the opposite — this theorem evaluates it at a failing service
call: `get_embedding` swallows the exception and returns the 768-dimensional
zero vector, and the ingestion path (`upload_document`) then succeeds with
that placeholder stored, instead of failing. -/
theorem get_embedding_zero_fallback :
    get_embedding (fun _ => none) ['h', 'i'] = List.replicate 768 0 ∧
    upload_document (fun _ => none)
      { document_chunks := [], chunk_embeddings := [], chat_history := [] }
      "a.txt" ['h', 'i']
      = .ok ({ document_chunks := [['h', 'i']],
               chunk_embeddings := [List.replicate 768 0],
               chat_history := [] }, 1) := by
  constructor
  · rfl
  · decide

/-- Claim C2: with no chunks indexed, `retrieve_relevant_chunks` returns the
empty sequence with similarity `0.0` for every embedding service and every
similarity routine (so the Embedder is never consulted) and never raises;
likewise `VectorStoreManager.search` on an empty index returns `[]` for every
embedding oracle, before any embedding call. -/
theorem empty_index_retrieval :
    (∀ (svc : List Char → Option (List ℚ)) (cos : List ℚ → List ℚ → ℚ)
       (st : AppState) (query : List Char) (top_k : Nat),
       st.document_chunks = [] →
       retrieve_relevant_chunks svc cos st query top_k = ([], 0)) ∧
    (∀ (vs : VectorStore) (emb : String → Option (List ℚ)) (query : String)
       (top_k : Nat) (ids : Option (List String)),
       vs.index = [] →
       VectorStoreManager.search vs emb query top_k ids = .ok []) := by
  constructor
  · intro svc cos st query top_k h
    unfold retrieve_relevant_chunks
    rw [if_pos h]
  · intro vs emb query top_k ids h
    unfold VectorStoreManager.search
    rw [if_pos (by rw [h]; rfl)]

/-- Witness for C2, at empty stores and an *always-failing* embedding
oracle: the empty-index answers come back without error. -/
theorem empty_index_retrieval_witness :
    retrieve_relevant_chunks (fun _ => none) (fun _ _ => 0)
      { document_chunks := [], chunk_embeddings := [], chat_history := [] }
      ['q'] 3 = ([], 0) ∧
    VectorStoreManager.search emptyStore (fun _ => none) "q" 5 none = .ok [] :=
  ⟨empty_index_retrieval.1 _ _ _ _ _ rfl,
   empty_index_retrieval.2 _ _ _ _ _ rfl⟩

/-- Claim C9: the history log is bounded by 50: an append preserves the
bound, an append below the cap is a plain append of the one new record, and
51 appends starting from the empty log leave exactly the most recent 50 in
append order (the oldest — index 0 — evicted). -/
theorem history_capped :
    (∀ (hist : List HistoryItem) (item : HistoryItem), hist.length ≤ 50 →
       (save_history hist item).length ≤ 50) ∧
    (∀ (hist : List HistoryItem) (item : HistoryItem), hist.length < 50 →
       save_history hist item = hist ++ [item]) ∧
    (∀ items : List HistoryItem, items.length = 51 →
       save_history_all [] items = items.drop 1) := by
  refine ⟨save_history_length_le, save_history_of_lt, ?_⟩
  intro items h
  rw [save_history_all_eq items [] (by simp)]
  simp only [List.nil_append, List.length_nil, Nat.zero_add, h]

/-- Witness for C9: a 50-entry log stays within bound, an append below the
cap is a plain append, and 51 appends keep the most recent 50. -/
theorem history_capped_witness :
    (save_history (List.replicate 50 item0) item0).length ≤ 50 ∧
    save_history [] item0 = [item0] ∧
    save_history_all [] (List.replicate 51 item0)
      = (List.replicate 51 item0).drop 1 :=
  ⟨history_capped.1 _ item0 (by simp),
   history_capped.2.1 [] item0 (by simp),
   history_capped.2.2 _ (by simp)⟩

/-- Claim C10: every successful in-memory ingestion (file upload or
Wikipedia load) *replaces* the chunk store and the embedding store with
exactly the new document's chunks — the outcome is independent of the
previously loaded chunks — while the chat history is untouched. -/
theorem ingest_replaces_stores :
    (∀ (svc : List Char → Option (List ℚ)) (st : AppState) (filename : String)
       (text : List Char) (st2 : AppState) (n : Nat),
       upload_document svc st filename text = .ok (st2, n) →
       st2.document_chunks = (chunk_text text 500 50).getD [] ∧
       st2.chunk_embeddings = st2.document_chunks.map (get_embedding svc) ∧
       st2.chat_history = st.chat_history ∧ n = st2.document_chunks.length) ∧
    (∀ (svc : List Char → Option (List ℚ))
       (wiki : String → Except String (List Char)) (st : AppState)
       (topic : String) (st2 : AppState) (n : Nat),
       load_wikipedia svc wiki st topic = .ok (st2, n) →
       ∃ text, wiki topic = .ok text ∧
         st2.document_chunks = (chunk_text text 500 50).getD [] ∧
         st2.chunk_embeddings = st2.document_chunks.map (get_embedding svc) ∧
         st2.chat_history = st.chat_history ∧
         n = st2.document_chunks.length) := by
  constructor
  · intro svc st filename text st2 n h
    unfold upload_document at h
    by_cases h1 : ¬ (pyEndsWith filename.data ".pdf".data ∨ pyEndsWith filename.data ".txt".data)
    · rw [if_pos h1] at h
      exact absurd h (by simp)
    · rw [if_neg h1] at h
      by_cases h2 : pyStrip text = []
      · rw [if_pos h2] at h
        exact absurd h (by simp)
      · rw [if_neg h2] at h
        cases hct : chunk_text text 500 50 with
        | none =>
          rw [hct] at h
          exact absurd h (by simp)
        | some cs =>
          rw [hct] at h
          injection h with h5
          injection h5 with ha hb
          subst ha
          subst hb
          exact ⟨by simp [hct], rfl, rfl, rfl⟩
  · intro svc wiki st topic st2 n h
    unfold load_wikipedia at h
    cases hw : wiki topic with
    | error e =>
      rw [hw] at h
      exact absurd h (by simp)
    | ok text =>
      simp only [hw] at h
      by_cases h2 : pyStrip text = []
      · rw [if_pos h2] at h
        exact absurd h (by simp)
      · rw [if_neg h2] at h
        cases hct : chunk_text text 500 50 with
        | none =>
          rw [hct] at h
          exact absurd h (by simp)
        | some cs =>
          rw [hct] at h
          injection h with h5
          injection h5 with ha hb
          subst ha
          subst hb
          exact ⟨text, rfl, by simp [hct], rfl, rfl, rfl⟩

/-- Witness for C10: uploading the text `"hi"` over a state that already
holds an old chunk, an old embedding and one history record replaces both
stores and keeps the history. -/
theorem ingest_replaces_stores_witness :
    ∃ st2 n, upload_document (fun _ => some [(1:ℚ)])
        { document_chunks := [['o', 'l', 'd']], chunk_embeddings := [[5]],
          chat_history := [item0] } "a.txt" ['h', 'i'] = .ok (st2, n) ∧
      st2.document_chunks = (chunk_text ['h', 'i'] 500 50).getD [] ∧
      st2.chunk_embeddings = st2.document_chunks.map
        (get_embedding (fun _ => some [(1:ℚ)])) ∧
      st2.chat_history = [item0] ∧ n = st2.document_chunks.length := by
  refine ⟨{ document_chunks := [['h', 'i']], chunk_embeddings := [[(1:ℚ)]],
            chat_history := [item0] }, 1, rfl, ?_⟩
  exact ingest_replaces_stores.1 (fun _ => some [(1:ℚ)])
    { document_chunks := [['o', 'l', 'd']], chunk_embeddings := [[5]],
      chat_history := [item0] } "a.txt" ['h', 'i']
    { document_chunks := [['h', 'i']], chunk_embeddings := [[(1:ℚ)]],
      chat_history := [item0] } 1 rfl

/-- Counterexample to C6 as stated: at `overlap = size` the step is zero and
the chunker raises (`range()` rejects a zero step, modelled `none`) instead
of producing no chunks without error. -/
theorem chunker_step_zero_raises :
    (5 : Int) ≤ 5 ∧ chunk_text ['h', 'i'] 5 5 = none :=
  ⟨le_refl 5, by decide⟩

/-- Claim C6 (amended): for `overlap > size` (negative step) the chunker
produces no chunks and does not raise; at `overlap = size` (zero step) the
underlying `range` call raises `ValueError`, so the chunker is *not* total at
that boundary. -/
theorem chunker_nonpositive_step :
    ∀ (text : List Char) (chunk_size overlap : Int),
      (chunk_size < overlap → chunk_text text chunk_size overlap = some []) ∧
      (chunk_size = overlap → chunk_text text chunk_size overlap = none) := by
  intro text chunk_size overlap
  constructor
  · intro h
    simp only [chunk_text]
    rw [pyRange_neg_zero ((pySplit text).length : Int) (chunk_size - overlap)
      (by omega) (Int.natCast_nonneg _)]
    simp
  · intro h
    simp only [chunk_text]
    rw [show chunk_size - overlap = 0 from by omega]
    simp [pyRange]

/-- Witness for C6 (amended), at concrete sizes: `size 3 / overlap 7` gives
`some []` (no chunks, no error), `size 4 / overlap 4` raises. -/
theorem chunker_nonpositive_step_witness :
    chunk_text ['h', 'i'] 3 7 = some [] ∧ chunk_text ['h', 'i'] 4 4 = none :=
  ⟨(chunker_nonpositive_step ['h', 'i'] 3 7).1 (by norm_num),
   (chunker_nonpositive_step ['h', 'i'] 4 4).2 rfl⟩

/-- Counterexample to C5 as stated: over the full `int` domain of the
parameters, `overlap < size` alone does not bound chunk word counts: with
`size = -3`, `overlap = -10` (step 7) on a 5-word text, a produced chunk has
2 words, and 2 is not at most the claimed `size`. -/
theorem chunker_word_bound_cex :
    (-10 : Int) < -3 ∧
    (chunk_text ['a', ' ', 'b', 'c', ' ', 'd', ' ', 'e', ' ', 'f']
        (-3) (-10)).map
      (fun cs => cs.map (fun c => ((pySplit c).length : Int))) = some [2] ∧
    ¬ ((2 : Int) ≤ -3) :=
  ⟨by norm_num, by decide, by norm_num⟩

set_option maxRecDepth 10000 in
/-- Claim C5 (amended with `0 ≤ size`, which the counterexample shows is
needed): for `overlap < size`, the chunker succeeds, every emitted chunk is
the space-join of the word window starting at a multiple of
`size - overlap` and holding at most `size` words, only chunks non-empty
after stripping are kept; and the 1200-word text with size 500 / overlap 50
yields exactly 3 chunks. -/
theorem chunker_word_window :
    (∀ (text : List Char) (chunk_size overlap : Int), 0 ≤ chunk_size →
       overlap < chunk_size →
       ∃ cs, chunk_text text chunk_size overlap = some cs ∧
         ∀ c ∈ cs, ∃ n : Nat,
           c = joinWords (pySlice (pySplit text)
                 ((chunk_size - overlap) * n)
                 ((chunk_size - overlap) * n + chunk_size)) ∧
           ((pySlice (pySplit text) ((chunk_size - overlap) * n)
               ((chunk_size - overlap) * n + chunk_size)).length : Int)
             ≤ chunk_size ∧
           pyStrip c ≠ []) ∧
    (chunk_text text1200 500 50).map List.length = some 3 := by
  constructor
  · intro text chunk_size overlap hsz hlt
    have hstep : 0 < chunk_size - overlap := by omega
    simp only [chunk_text]
    rw [pyRange_pos_zero ((pySplit text).length : Int) (chunk_size - overlap)
      hstep]
    refine ⟨_, rfl, ?_⟩
    intro c hc
    obtain ⟨i, hi, hfi⟩ := List.mem_filterMap.1 hc
    obtain ⟨n, _, rfl⟩ := List.mem_map.1 hi
    by_cases hstrip : pyStrip (joinWords (pySlice (pySplit text)
        ((chunk_size - overlap) * n)
        ((chunk_size - overlap) * n + chunk_size))) ≠ []
    · rw [if_pos hstrip] at hfi
      cases hfi
      exact ⟨n, rfl,
        pySlice_length_le (pySplit text) ((chunk_size - overlap) * n)
          chunk_size (mul_nonneg (le_of_lt hstep) (Int.natCast_nonneg n)) hsz,
        hstrip⟩
    · rw [if_neg hstrip] at hfi
      exact absurd hfi (by simp)
  · decide

/-- Witness for C5 (amended): size 2 / overlap 1 on the three-word text
`"a b c"`. -/
theorem chunker_word_window_witness :
    ∃ cs, chunk_text ['a', ' ', 'b', ' ', 'c'] 2 1 = some cs ∧
      ∀ c ∈ cs, ∃ n : Nat,
        c = joinWords (pySlice (pySplit ['a', ' ', 'b', ' ', 'c'])
              ((2 - 1) * n) ((2 - 1) * n + 2)) ∧
        ((pySlice (pySplit ['a', ' ', 'b', ' ', 'c']) ((2 - 1) * n)
            ((2 - 1) * n + 2)).length : Int) ≤ 2 ∧
        pyStrip c ≠ [] :=
  chunker_word_window.1 ['a', ' ', 'b', ' ', 'c'] 2 1 (by norm_num)
    (by norm_num)

/-- The context block of a chunk is never the empty string. -/
theorem sourceBlock_length_pos (idx : Nat) (c : SearchResult) :
    0 < (sourceBlock idx c).length := by
  have h8 : ("[Source " : String).length = 8 := rfl
  simp only [sourceBlock, String.length_append, h8]
  omega

/-- Evaluation of `generate_answer` on a single context chunk that fits the
budget: the generated text is returned with the chunk's document as sole
source and confidence `round(min(sim, 1.0), 3)`. -/
theorem generate_answer_single (gen : String → Option String)
    (query ans : String) (c : SearchResult)
    (hfit : ¬ settings.MAX_CONTEXT_LENGTH < (sourceBlock 1 c).length)
    (hgen : gen (answerPrompt (sourceBlock 1 c) query) = some ans) :
    generate_answer gen query [c]
      = .ok { answer := ans,
              sources := [{ document_id := c.document_id,
                            filename := c.metadata.filename,
                            chunk_id := c.chunk_id,
                            relevance_score := round3 c.similarity }],
              confidence := round3 (min c.similarity 1) } := by
  have hparts : contextParts settings.MAX_CONTEXT_LENGTH 1 0 [c]
      = [sourceBlock 1 c] := by
    simp only [contextParts]
    rw [if_neg (by simpa using hfit)]
  have hctx : prepare_context settings.MAX_CONTEXT_LENGTH [c]
      = sourceBlock 1 c := by
    simp only [prepare_context]
    rw [if_neg (by simp), hparts]
    rfl
  have hne : prepare_context settings.MAX_CONTEXT_LENGTH [c] ≠ "" := by
    rw [hctx]
    intro he
    have := sourceBlock_length_pos 1 c
    rw [he] at this
    simp at this
  simp only [generate_answer]
  rw [if_neg hne, hctx, hgen]
  simp only [List.map_cons, List.map_nil, List.sum_cons, List.sum_nil,
    List.length_cons, List.length_nil, dedupSources, List.not_mem_nil,
    if_neg (not_false)]
  norm_num

/-- Counterexample to C7 as stated: the returned confidence is the mean
similarity *rounded to 3 decimals* (and clamped at 1.0), so it does not in
general equal the mean: a single context chunk of similarity `1/3` yields
confidence `0.333 ≠ 1/3`. -/
theorem confidence_not_exact_mean :
    (generate_answer (fun _ => some "ans") "q" [chunkThird]).map
      (fun a => a.confidence) = .ok (333/1000) ∧
    ([chunkThird].map (fun c => c.similarity)).sum
      / (([chunkThird].length : Nat) : ℚ) = 1/3 ∧
    (333/1000 : ℚ) ≠ 1/3 := by
  refine ⟨?_, by norm_num [chunkThird], by norm_num⟩
  rw [generate_answer_single (fun _ => some "ans") "q" "ans" chunkThird
    (by decide) rfl]
  simp only [Except.map]
  congr 1
  norm_num [chunkThird, round3, round_eq]

/-- Claim C7 (amended): for context chunks whose similarities lie in `[0,1]`
(as `search` produces), every confidence `generate_answer` returns lies in
`[0,1]`, and whenever the assembled context is non-empty the confidence
equals `round(min(mean similarity, 1.0), 3)` — the mean of the per-chunk
similarity scores up to the clamp and the 3-decimal rounding the source
applies. -/
theorem confidence_bounded_rounded_mean :
    ∀ (gen : String → Option String) (query : String)
      (chunks : List SearchResult) (a : AnswerResult),
      (∀ c ∈ chunks, 0 ≤ c.similarity ∧ c.similarity ≤ 1) →
      generate_answer gen query chunks = .ok a →
      (0 ≤ a.confidence ∧ a.confidence ≤ 1) ∧
      (prepare_context settings.MAX_CONTEXT_LENGTH chunks ≠ "" →
        a.confidence
          = round3 (min ((chunks.map (fun c => c.similarity)).sum
              / ((chunks.length : Nat) : ℚ)) 1)) := by
  intro gen query chunks a hsim h
  simp only [generate_answer] at h
  by_cases hctx : prepare_context settings.MAX_CONTEXT_LENGTH chunks = ""
  · rw [if_pos hctx] at h
    cases h
    exact ⟨⟨le_refl 0, by norm_num⟩, fun hne => absurd hctx hne⟩
  · rw [if_neg hctx] at h
    cases hg : gen (answerPrompt
        (prepare_context settings.MAX_CONTEXT_LENGTH chunks) query) with
    | none =>
      rw [hg] at h
      exact absurd h (by simp)
    | some ans =>
      simp only [hg] at h
      cases h
      have hchunks : chunks ≠ [] := by
        intro he
        exact hctx (by rw [he]; rfl)
      have hlen : 0 < ((chunks.length : Nat) : ℚ) := by
        exact_mod_cast List.length_pos.2 hchunks
      have hsum : 0 ≤ (chunks.map (fun c => c.similarity)).sum := by
        apply List.sum_nonneg
        intro x hx
        obtain ⟨c, hc, rfl⟩ := List.mem_map.1 hx
        exact (hsim c hc).1
      have havg : 0 ≤ (chunks.map (fun c => c.similarity)).sum
          / ((chunks.length : Nat) : ℚ) := div_nonneg hsum (le_of_lt hlen)
      exact ⟨round3_bounds (le_min havg (by norm_num)) (min_le_right _ _),
        fun _ => rfl⟩

/-- Witness for C7 (amended), at a single context chunk of similarity `1/2`
and a succeeding generation oracle. -/
theorem confidence_bounded_rounded_mean_witness :
    (0 ≤ round3 (min chunkHalf.similarity 1) ∧
      round3 (min chunkHalf.similarity 1) ≤ 1) ∧
    (prepare_context settings.MAX_CONTEXT_LENGTH [chunkHalf] ≠ "" →
      round3 (min chunkHalf.similarity 1)
        = round3 (min (([chunkHalf].map (fun c => c.similarity)).sum
            / (([chunkHalf].length : Nat) : ℚ)) 1)) :=
  confidence_bounded_rounded_mean (fun _ => some "ans") "q" [chunkHalf]
    { answer := "ans",
      sources := [{ document_id := chunkHalf.document_id,
                    filename := chunkHalf.metadata.filename,
                    chunk_id := chunkHalf.chunk_id,
                    relevance_score := round3 chunkHalf.similarity }],
      confidence := round3 (min chunkHalf.similarity 1) }
    (by norm_num [chunkHalf])
    (generate_answer_single (fun _ => some "ans") "q" "ans" chunkHalf
      (by decide) rfl)

/-- On a populated index with a succeeding embedder, `search` returns the
first `top_k` survivors (metadata present, document filter passed) of the
`min(2k, ntotal)` ranked candidates. -/
theorem search_ok_characterization (vs : VectorStore)
    (emb : String → Option (List ℚ)) (query : String) (top_k : Nat)
    (document_ids : Option (List String)) (qe : List ℚ)
    (hk : 1 ≤ top_k) (hne : vs.index ≠ []) (hemb : emb query = some qe) :
    VectorStoreManager.search vs emb query top_k document_ids
      = .ok (((faissSearch vs.index qe
            (min (top_k * 2) vs.index.length)).filterMap
          (candResult vs.metadata_store document_ids)).take top_k) := by
  unfold VectorStoreManager.search
  rw [if_neg (by simpa [List.length_eq_zero] using hne)]
  simp only [hemb]
  rw [searchLoop_eq_take vs.metadata_store document_ids top_k _ []
    (by simpa using hk), List.nil_append]

/-- Claim C4: on a populated index with `k ≥ 1`, `search` returns at most
`k` results, ranked by non-decreasing L2 distance (`score`), equivalently
non-increasing similarity, and no FAISS row contributes twice (the
`row_id`s of the returned rows are pairwise distinct). -/
theorem search_ranked_bounded :
    ∀ (vs : VectorStore) (emb : String → Option (List ℚ)) (query : String)
      (top_k : Nat) (document_ids : Option (List String)) (qe : List ℚ),
      1 ≤ top_k → vs.index ≠ [] → emb query = some qe →
      ∃ results,
        VectorStoreManager.search vs emb query top_k document_ids
          = .ok results ∧
        results.length ≤ top_k ∧
        List.Pairwise (fun a b => a.score ≤ b.score) results ∧
        List.Pairwise (fun a b => b.similarity ≤ a.similarity) results ∧
        (results.map (fun r => r.row_id)).Nodup := by
  intro vs emb query top_k document_ids qe hk hne hemb
  refine ⟨_, search_ok_characterization vs emb query top_k document_ids qe
    hk hne hemb, ?_, ?_, ?_, ?_⟩
  · exact List.length_take_le _ _
  · apply List.Pairwise.sublist (List.take_sublist _ _)
    apply List.Pairwise.filterMap (candResult vs.metadata_store document_ids)
      ?_ (faissSearch_sorted vs.index qe _)
    intro a b hab r hr r2 hr2
    rw [Option.mem_def] at hr hr2
    rw [(candResult_fields hr).2.1, (candResult_fields hr2).2.1]
    exact candLE_fst hab
  · apply List.Pairwise.sublist (List.take_sublist _ _)
    have hmono : List.Pairwise
        (fun a b : ℚ × Nat => 1 / (1 + b.1) ≤ 1 / (1 + a.1))
        (faissSearch vs.index qe (min (top_k * 2) vs.index.length)) := by
      apply List.Pairwise.imp_of_mem ?_ (faissSearch_sorted vs.index qe _)
      intro a b ha hb hab
      have h0a : (0:ℚ) ≤ a.1 := by
        rw [faissSearch_mem vs.index qe _ a ha]
        exact sqDist_nonneg _ _
      exact one_div_le_one_div_of_le (by linarith) (by
        have := candLE_fst hab
        linarith)
    apply List.Pairwise.filterMap (candResult vs.metadata_store document_ids)
      ?_ hmono
    intro a b hab r hr r2 hr2
    rw [Option.mem_def] at hr hr2
    rw [(candResult_fields hr).2.2.1, (candResult_fields hr2).2.2.1]
    exact hab
  · rw [List.Nodup, List.pairwise_map]
    apply List.Pairwise.sublist (List.take_sublist _ _)
    apply List.Pairwise.filterMap (candResult vs.metadata_store document_ids)
      ?_ (faissSearch_nodup vs.index qe _)
    intro a b hab r hr r2 hr2
    rw [Option.mem_def] at hr hr2
    rw [(candResult_fields hr).1, (candResult_fields hr2).1]
    exact hab

/-- Witness for C4, on the two-row store. -/
theorem search_ranked_bounded_witness :
    ∃ results, VectorStoreManager.search store3 emb0 "q" 2 none
        = .ok results ∧
      results.length ≤ 2 ∧
      List.Pairwise (fun a b => a.score ≤ b.score) results ∧
      List.Pairwise (fun a b => b.similarity ≤ a.similarity) results ∧
      (results.map (fun r => r.row_id)).Nodup :=
  search_ranked_bounded store3 emb0 "q" 2 none [0] (by norm_num)
    (by simp [store3]) rfl

/-- Counterexample to C3 as stated: a *supplied but empty* document-id
filter is falsy in Python, so filtering is disabled and the search returns a
chunk of document `d1` — a document outside the (empty) requested set. -/
theorem search_empty_filter_cex :
    (VectorStoreManager.search store1 emb0 "q" 1 (some [])).map
      (fun rs => rs.map (fun r => r.document_id)) = .ok ["d1"] ∧
    ("d1" : String) ∉ ([] : List String) := by
  refine ⟨?_, by simp⟩
  rw [search_ok_characterization store1 emb0 "q" 1 (some []) [0]
    (by norm_num) (by simp [store1]) rfl]
  simp [store1, faissSearch, sqDist, candResult, dictGet, List.insertionSort,
    List.orderedInsert, List.range_succ]
  rfl

/-- Claim C3 (amended to *non-empty* filters; a supplied empty list disables
filtering, as the counterexample shows): with `k ≥ 1`, a populated index, a
succeeding embedder and a non-empty document-id filter, `search` requests
exactly `min(2k, ntotal)` ranked candidates, keeps only candidates whose
owning document is in the filter (dropping dangling rows), truncates to at
most `k`, returns exactly the surviving prefix without retrying when fewer
than `k` survive, and never returns a chunk outside the requested set. -/
theorem search_filter_behavior :
    ∀ (vs : VectorStore) (emb : String → Option (List ℚ)) (query : String)
      (top_k : Nat) (ids : List String) (qe : List ℚ),
      1 ≤ top_k → vs.index ≠ [] → emb query = some qe → ids ≠ [] →
      (faissSearch vs.index qe (min (top_k * 2) vs.index.length)).length
          = min (top_k * 2) vs.index.length ∧
      ∃ results,
        VectorStoreManager.search vs emb query top_k (some ids)
          = .ok results ∧
        results = ((faissSearch vs.index qe
            (min (top_k * 2) vs.index.length)).filterMap
          (candResult vs.metadata_store (some ids))).take top_k ∧
        results.length ≤ top_k ∧
        (((faissSearch vs.index qe (min (top_k * 2) vs.index.length)).filterMap
            (candResult vs.metadata_store (some ids))).length ≤ top_k →
          results = (faissSearch vs.index qe
              (min (top_k * 2) vs.index.length)).filterMap
            (candResult vs.metadata_store (some ids))) ∧
        ∀ r ∈ results, r.document_id ∈ ids := by
  intro vs emb query top_k ids qe hk hne hemb hids
  refine ⟨faissSearch_length vs.index qe _ (min_le_right _ _), _,
    search_ok_characterization vs emb query top_k (some ids) qe hk hne hemb,
    rfl, List.length_take_le _ _, ?_, ?_⟩
  · intro hlen
    exact List.take_of_length_le hlen
  · intro r hr
    have hr2 := (List.take_sublist _ _).mem hr
    obtain ⟨c, _, hc⟩ := List.mem_filterMap.1 hr2
    exact candResult_filter hids hc

/-- Witness for C3 (amended): on the two-row store with filter `["d2"]` and
`k = 1`, both candidates are fetched, the `d1` candidate is dropped, and the
single returned chunk belongs to `d2`. -/
theorem search_filter_behavior_witness :
    (faissSearch store3.index [0] (min (1 * 2) store3.index.length)).length
        = min (1 * 2) store3.index.length ∧
    ∃ results,
      VectorStoreManager.search store3 emb0 "q" 1 (some ["d2"])
        = .ok results ∧
      results = ((faissSearch store3.index [0]
          (min (1 * 2) store3.index.length)).filterMap
        (candResult store3.metadata_store (some ["d2"]))).take 1 ∧
      results.length ≤ 1 ∧
      (((faissSearch store3.index [0]
            (min (1 * 2) store3.index.length)).filterMap
          (candResult store3.metadata_store (some ["d2"]))).length ≤ 1 →
        results = (faissSearch store3.index [0]
            (min (1 * 2) store3.index.length)).filterMap
          (candResult store3.metadata_store (some ["d2"]))) ∧
      ∀ r ∈ results, r.document_id ∈ ["d2"] :=
  search_filter_behavior store3 emb0 "q" 1 ["d2"] [0] (by norm_num)
    (by simp [store3]) rfl (by simp)

/-- Every document id a successful `search` reports comes from an entry of
the metadata store. -/
theorem search_results_document_ids (vs : VectorStore)
    (emb2 : String → Option (List ℚ)) (query : String) (top_k : Nat)
    (ids : Option (List String)) (results : List SearchResult)
    (hs : VectorStoreManager.search vs emb2 query top_k ids = .ok results) :
    ∀ r ∈ results, ∃ p ∈ vs.metadata_store,
      r.document_id = p.2.document_id := by
  intro r hr
  unfold VectorStoreManager.search at hs
  by_cases hz : vs.index.length = 0
  · rw [if_pos hz] at hs
    injection hs with hs
    subst hs
    simp at hr
  · rw [if_neg hz] at hs
    cases he : emb2 query with
    | none =>
      rw [he] at hs
      exact absurd hs (by simp)
    | some qe =>
      simp only [he] at hs
      injection hs with hs
      subst hs
      rcases mem_searchLoop _ _ _ _ _ r hr with h0 | ⟨c, _, hc⟩
      · simp at h0
      · obtain ⟨_, _, _, m, hmg, hdoc⟩ := candResult_fields hc
        obtain ⟨pm, hfind, hpm⟩ := Option.map_eq_some'.1 hmg
        exact ⟨pm, List.mem_of_find?_eq_some hfind, by rw [hdoc, hpm]⟩

/-- Claim C8: after `add_document` followed by `delete_document` for the same
document id, `list_documents` no longer lists that document, and no
subsequent `search` — any embedder, query, `k`, or filter — returns a chunk
owned by it (the dangling index rows are dropped by the metadata lookup). -/
theorem delete_document_purges :
    ∀ (vs : VectorStore) (emb : String → Option (List ℚ))
      (document_id : String) (chunks : List ChunkIn) (metadata : DocMeta)
      (vs1 vs2 : VectorStore) (deleted : Bool),
      VectorStoreManager.add_document vs emb document_id chunks metadata
        = .ok vs1 →
      VectorStoreManager.delete_document vs1 document_id = (deleted, vs2) →
      (∀ e ∈ VectorStoreManager.list_documents vs2,
        e.document_id ≠ document_id) ∧
      (∀ (emb2 : String → Option (List ℚ)) (query : String) (top_k : Nat)
         (ids : Option (List String)) (results : List SearchResult),
         VectorStoreManager.search vs2 emb2 query top_k ids = .ok results →
         ∀ r ∈ results, r.document_id ≠ document_id) := by
  intro vs emb document_id chunks metadata vs1 vs2 deleted hadd hdel
  unfold VectorStoreManager.add_document at hadd
  cases hm : (chunks.map (fun c => c.text)).mapM emb with
  | none =>
    rw [hm] at hadd
    exact absurd hadd (by simp)
  | some embeddings =>
    rw [hm] at hadd
    injection hadd with hadd
    unfold VectorStoreManager.delete_document at hdel
    rw [if_neg ?_] at hdel
    · injection hdel with hd1 hd2
      have hdc : vs2.document_chunks
          = vs1.document_chunks.filter (fun p => p.1 ≠ document_id) := by
        rw [← hd2]
      have hms : vs2.metadata_store
          = vs1.metadata_store.filter
              (fun p => p.2.document_id ≠ document_id) := by
        rw [← hd2]
      constructor
      · intro e he
        obtain ⟨p, hp, rfl⟩ := List.mem_map.1 he
        rw [hdc] at hp
        have hp2 := (List.mem_filter.1 hp).2
        simpa using hp2
      · intro emb2 query top_k ids results hs r hr
        obtain ⟨p, hp, hdoc⟩ :=
          search_results_document_ids vs2 emb2 query top_k ids results hs r hr
        rw [hms] at hp
        have hp2 := (List.mem_filter.1 hp).2
        rw [hdoc]
        simpa using hp2
    · subst hadd
      obtain ⟨p, hp, hpk⟩ := dictInsert_exists_key document_id
        { metadata := metadata, chunk_count := chunks.length,
          vector_ids := List.range' vs.index.length chunks.length }
        vs.document_chunks
      intro hnone
      rw [Option.isNone_iff_eq_none] at hnone
      exact absurd (List.find?_eq_none.1 hnone p hp) (by simpa using hpk)

/-- Witness for C8: add document `d1` to the empty store, delete it; the
document list no longer mentions `d1` and no search result can be owned by
`d1`. -/
theorem delete_document_purges_witness :
    (∀ e ∈ VectorStoreManager.list_documents store2,
      e.document_id ≠ "d1") ∧
    (∀ (emb2 : String → Option (List ℚ)) (query : String) (top_k : Nat)
       (ids : Option (List String)) (results : List SearchResult),
       VectorStoreManager.search store2 emb2 query top_k ids = .ok results →
       ∀ r ∈ results, r.document_id ≠ "d1") :=
  delete_document_purges emptyStore emb0 "d1" [chunkIn0] docMeta0
    store1 store2 true rfl rfl
